import Mathlib

/-!
Verification of the `@extpkg/packager` utility (`src/packager.ts`) against its
specification.  The TypeScript source is shallowly embedded: byte buffers are
`List Nat`, filesystem paths are component lists (`path.join` is list append),
the filesystem is an association list from paths to entries, and the external
effects the code invokes (RSA key parsing/derivation/signing via `crypto`,
zip production via `archiver`, the fresh name chosen by `mkdtemp`, and the
outcome of the final `writeFile`) are oracle parameters, so every run of the
embedded functions is one concrete run of the program.
-/

/-- Byte sequences (`Buffer` contents). -/
abbrev Bytes := List Nat

/-- Filesystem paths as component lists; `path.join a b` is `a ++ b`. -/
abbrev FPath := List String

/-- A filesystem entry: a regular file with contents, a directory, or any
other object kind (socket, fifo, ...), mirroring `stat.isFile()` /
`stat.isDirectory()` / neither. -/
inductive Entry
  | file (content : Bytes)
  | dir
  | other
deriving DecidableEq

/-- The filesystem: an association list from paths to entries.  Earlier
entries shadow later ones with the same path. -/
abbrev FS := List (FPath × Entry)

/-- Look up the entry at a path (`fs.promises.stat`, `none` = ENOENT). -/
def FS.statOf (fs : FS) (p : FPath) : Option Entry :=
  match fs with
  | [] => none
  | (q, e) :: rest => if q = p then some e else FS.statOf rest p

/-- Existence test `fs.existsSync`: true iff any entry (file, directory or
other) is at `p`. -/
def FS.existsPath (fs : FS) (p : FPath) : Bool :=
  (FS.statOf fs p).isSome

/-- Reading a file (`fs.readFileSync` / `fs.promises.readFile`): the contents
when a regular file is at `p`, otherwise failure (ENOENT / EISDIR). -/
def FS.readFile (fs : FS) (p : FPath) : Option Bytes :=
  match FS.statOf fs p with
  | some (.file c) => some c
  | _ => none

/-- Create or overwrite the entry at a path (`writeFile`, `mkdtemp`). -/
def FS.set (fs : FS) (p : FPath) (e : Entry) : FS :=
  match fs with
  | [] => [(p, e)]
  | (q, e') :: rest => if q = p then (p, e) :: rest else (q, e') :: FS.set rest p e

/-- Recursive removal, as `fs.promises.rm` with the recursive flag: remove
the entry at `p` and every entry below it. -/
def FS.removeUnder (fs : FS) (p : FPath) : FS :=
  match fs with
  | [] => []
  | (q, e) :: rest =>
    if p.isPrefixOf q then FS.removeUnder rest p
    else (q, e) :: FS.removeUnder rest p

/-- No entry exists at `p` or anywhere below it.  The freshness guarantee of
`mkdtemp` for the scratch directory is the hypothesis `noneUnder fs tmp`. -/
def FS.noneUnder (fs : FS) (p : FPath) : Bool :=
  fs.all (fun q => !(p.isPrefixOf q.1))

/-- Little-endian 32-bit encoding, as produced by `buffer.writeUint32LE`. -/
def le32 (n : Nat) : Bytes :=
  [n % 256, n / 256 % 256, n / 65536 % 256, n / 16777216 % 256]

/-- Little-endian decoding of a byte list (inverse of `le32` below `2^32`). -/
def decodeLE (b : Bytes) : Nat :=
  match b with
  | [] => 0
  | x :: rest => x + 256 * decodeLE rest

/-- The fixed magic bytes written at offset 0 (`Buffer.from([0x45, 0x58, 0x54,
0x38])`, ASCII "EXT8"). -/
def magicBytes : Bytes := [0x45, 0x58, 0x54, 0x38]

/-- The fixed format-version bytes written at offset 4
(`Buffer.from([0x02, 0x00, 0x00, 0x00])`). -/
def versionBytes : Bytes := [0x02, 0x00, 0x00, 0x00]

/-- The container assembly of `pack` (source lines 145-156): magic, version,
the two little-endian length fields, then the public key, signature and
payload sections.  The `Buffer.alloc`/`copy` sequence of the source fills a
buffer of length `16 + publicKeyLength + signatureLength + zip.length`
exactly in this layout. -/
def assemble (publicKeyDer signature payload : Bytes) : Bytes :=
  magicBytes ++ versionBytes ++ le32 publicKeyDer.length ++
    le32 signature.length ++ publicKeyDer ++ signature ++ payload

/-- Parsing a container the way the specification describes: read the magic
and version, the two little-endian 32-bit length fields, then slice the three
sections by those lengths. -/
def parseContainer (b : Bytes) : Option (Bytes × Bytes × Bytes) :=
  if b.take 4 = magicBytes ∧ (b.drop 4).take 4 = versionBytes then
    let pkLen := decodeLE ((b.drop 8).take 4)
    let sgLen := decodeLE ((b.drop 12).take 4)
    some ((b.drop 16).take pkLen,
          (b.drop (16 + pkLen)).take sgLen,
          b.drop (16 + pkLen + sgLen))
  else none

/-- Key generation options (`KeygenOptions`).  `force` is optional in the
source (`options.force === undefined ? false : options.force`). -/
structure KeygenOptions where
  privateKeyFile : FPath
  force : Option Bool

/-- Errors raised by `keygen` / `keygenSync`. -/
inductive KeygenErr
  | alreadyExists
  | genFailed
deriving DecidableEq

/-- Embedding of `keygenSync` (source lines 19-43).  Here `gen` is the oracle
for `crypto.generateKeyPairSync` called with algorithm rsa, modulus length
2048 and pkcs8/pem private-key encoding: `some pem` is the PKCS#8-PEM private
key it produces, `none` a generation failure (the call throwing).  The
existence check precedes generation; on success only the private key is
written to `privateKeyFile`. -/
def keygenSync (gen : Option Bytes) (o : KeygenOptions) (fs : FS) :
    FS × Option KeygenErr :=
  let force := o.force.getD false
  if !force && FS.existsPath fs o.privateKeyFile then
    (fs, some .alreadyExists)
  else
    match gen with
    | none => (fs, some .genFailed)
    | some pem => (FS.set fs o.privateKeyFile (.file pem), none)

/-- Embedding of the asynchronous `keygen` (source lines 49-81).  It performs
the same existence check, then awaits `crypto.generateKeyPair` with the same
parameters (the callback rejecting on error, resolving with the PKCS#8-PEM
private key), then awaits `fs.promises.writeFile`.  A single invocation runs
these steps in sequence, so the embedding is the same state transformer over
the same oracle. -/
def keygen (gen : Option Bytes) (o : KeygenOptions) (fs : FS) :
    FS × Option KeygenErr :=
  let force := o.force.getD false
  if !force && FS.existsPath fs o.privateKeyFile then
    (fs, some .alreadyExists)
  else
    match gen with
    | none => (fs, some .genFailed)
    | some pem => (FS.set fs o.privateKeyFile (.file pem), none)

/-- Packaging options (`PackOptions`). -/
structure PackOptions where
  privateKeyFile : FPath
  sourcePath : FPath
  outFile : FPath
  force : Option Bool

/-- Errors raised by `pack`, one per `throw` site or throwing library call. -/
inductive PackErr
  | privateKeyMissing
  | sourceMissing
  | outFileExists
  | keyReadFailed
  | invalidKey
  | zipFailed
  | zipReadFailed
  | unsupportedSource
  | lengthOutOfRange
  | writeFailed
deriving DecidableEq

/-- The outcome of the final `fs.promises.writeFile(options.outFile, buffer)`.
That call is not atomic: when it fails it may already have created/truncated
the destination and written a prefix of the data (the specification, section 7,
documents exactly this limitation).  `failAfter k` models a failure after `k`
bytes reached the file. -/
inductive WriteOutcome
  | ok
  | failAfter (k : Nat)
deriving DecidableEq

/-- The external effects one invocation of `pack` draws on: `parseKey` is
`crypto.createPrivateKey` on the PEM bytes (failure = throwing an invalid-key
error), `pubDer` is the SPKI-DER export of the public key that
`crypto.createPublicKey` derives from the private key, `sign` is the
RSA-SHA1 `crypto.createSign`/`update`/`sign` sequence over the given payload
bytes, `zipResult` is what `createZip` produces for the source directory
(`none` =
archive error), `tmp` is the fresh directory name `mkdtemp` returns, and
`writeOutcome` is how the final `writeFile` behaves. -/
structure PackDeps where
  parseKey : Bytes → Option Nat
  pubDer : Nat → Bytes
  sign : Nat → Bytes → Bytes
  zipResult : Option Bytes
  tmp : FPath
  writeOutcome : WriteOutcome

/-- The tail of `pack` after the payload is obtained (source lines 138-160):
create the signature over the payload bytes, allocate and fill the output
buffer (the two `writeUint32LE` calls throw a `RangeError` when a length does
not fit an unsigned 32-bit field), and write it to `outFile`. -/
def packFinish (d : PackDeps) (o : PackOptions) (fs : FS) (key : Nat)
    (publicKeyDer zip : Bytes) : FS × Option PackErr :=
  let signature := d.sign key zip
  if publicKeyDer.length < 4294967296 ∧ signature.length < 4294967296 then
    let buffer := assemble publicKeyDer signature zip
    match d.writeOutcome with
    | .ok => (FS.set fs o.outFile (.file buffer), none)
    | .failAfter k => (FS.set fs o.outFile (.file (buffer.take k)), some .writeFailed)
  else (fs, some .lengthOutOfRange)

/-- Embedding of `pack` (source lines 99-161).  Validation first (private key
exists, source exists, output absent unless `force`), then key import and
public-key derivation, then payload acquisition: for a directory source,
`mkdtemp` creates the fresh scratch directory `d.tmp`, `createZip` writes
`extension.zip` inside it, the file is read back, and the `finally` block
removes the scratch directory recursively on every exit path; for a file
source the bytes are read verbatim; any other entry kind is rejected.
Finally `packFinish` signs, assembles and writes. -/
def pack (d : PackDeps) (o : PackOptions) (fs : FS) : FS × Option PackErr :=
  let force := o.force.getD false
  if !(FS.existsPath fs o.privateKeyFile) then (fs, some .privateKeyMissing)
  else if !(FS.existsPath fs o.sourcePath) then (fs, some .sourceMissing)
  else if !force && FS.existsPath fs o.outFile then (fs, some .outFileExists)
  else
    match FS.readFile fs o.privateKeyFile with
    | none => (fs, some .keyReadFailed)
    | some pem =>
      match d.parseKey pem with
      | none => (fs, some .invalidKey)
      | some key =>
        let publicKeyDer := d.pubDer key
        match FS.statOf fs o.sourcePath with
        | none => (fs, some .sourceMissing)
        | some .dir =>
          let fs1 := FS.set fs d.tmp .dir
          match d.zipResult with
          | none => (FS.removeUnder fs1 d.tmp, some .zipFailed)
          | some z =>
            let zipFile := d.tmp ++ ["extension.zip"]
            let fs2 := FS.set fs1 zipFile (.file z)
            match FS.readFile fs2 zipFile with
            | none => (FS.removeUnder fs2 d.tmp, some .zipReadFailed)
            | some zip => packFinish d o (FS.removeUnder fs2 d.tmp) key publicKeyDer zip
        | some (.file c) => packFinish d o fs key publicKeyDer c
        | some .other => (fs, some .unsupportedSource)


/-- Concrete oracle values exercising `pack`: a parseable key, a two-byte
public-key DER, a three-byte signature, a four-byte archive, a scratch
directory name, and a fully succeeding final write. -/
def demoDeps : PackDeps where
  parseKey := fun _ => some 1
  pubDer := fun _ => [10, 11]
  sign := fun _ _ => [7, 8, 9]
  zipResult := some [80, 75, 3, 4]
  tmp := ["scratch"]
  writeOutcome := .ok

/-- Oracle values identical to `demoDeps` except that the final write fails
after three bytes have reached the output file. -/
def demoFailDeps : PackDeps :=
  { demoDeps with writeOutcome := .failAfter 3 }

/-- Concrete pack options naming a key file, a zip-file source and an output
file, without force. -/
def demoOpts : PackOptions where
  privateKeyFile := ["private.pem"]
  sourcePath := ["src.zip"]
  outFile := ["out.ext"]
  force := none

/-- Concrete pack options whose source path does not exist in `demoFS`. -/
def demoNoSrcOpts : PackOptions where
  privateKeyFile := ["private.pem"]
  sourcePath := ["missing"]
  outFile := ["out.ext"]
  force := none

/-- Concrete pack options for a directory source. -/
def demoDirOpts : PackOptions where
  privateKeyFile := ["private.pem"]
  sourcePath := ["srcdir"]
  outFile := ["outdir.ext"]
  force := none

/-- A filesystem holding a private-key file and a zip-file source. -/
def demoFS : FS := [(["private.pem"], .file [1]), (["src.zip"], .file [5, 6])]

/-- A filesystem holding a private-key file and a directory source. -/
def demoDirFS : FS := [(["private.pem"], .file [1]), (["srcdir"], .dir)]

/-- The filesystem produced by the successful demo run of `pack`. -/
def demoOut : FS := (pack demoDeps demoOpts demoFS).1

/-- Concrete key-generation options without force. -/
def demoKeyOpts : KeygenOptions where
  privateKeyFile := ["private.pem"]
  force := none

theorem FS.statOf_cons (q : FPath) (e : Entry) (rest : FS) (p : FPath) :
    FS.statOf ((q, e) :: rest) p = if q = p then some e else FS.statOf rest p := rfl

theorem FS.set_cons (q : FPath) (e' : Entry) (rest : FS) (p : FPath) (e : Entry) :
    FS.set ((q, e') :: rest) p e =
      if q = p then (p, e) :: rest else (q, e') :: FS.set rest p e := rfl

theorem FS.removeUnder_cons (q : FPath) (e : Entry) (rest : FS) (p : FPath) :
    FS.removeUnder ((q, e) :: rest) p =
      if p.isPrefixOf q then FS.removeUnder rest p
      else (q, e) :: FS.removeUnder rest p := rfl

theorem FS.noneUnder_nil (p : FPath) : FS.noneUnder [] p = true := rfl

theorem FS.noneUnder_cons (q : FPath) (e : Entry) (rest : FS) (p : FPath) :
    FS.noneUnder ((q, e) :: rest) p =
      (!(p.isPrefixOf q) && FS.noneUnder rest p) := rfl

theorem FS.statOf_set_self (fs : FS) (p : FPath) (e : Entry) :
    FS.statOf (FS.set fs p e) p = some e := by
  induction fs with
  | nil => simp [FS.set, FS.statOf]
  | cons hd rest ih =>
    obtain ⟨q, e'⟩ := hd
    rw [FS.set_cons]
    by_cases h : q = p
    · simp [if_pos h, FS.statOf_cons]
    · simp only [if_neg h, FS.statOf_cons, if_neg h, ih]

theorem FS.statOf_set_ne (fs : FS) (p q : FPath) (e : Entry) (h : q ≠ p) :
    FS.statOf (FS.set fs p e) q = FS.statOf fs q := by
  have hpq : p ≠ q := fun hh => h hh.symm
  induction fs with
  | nil =>
    show FS.statOf [(p, e)] q = none
    rw [FS.statOf_cons]
    simp only [if_neg hpq]
    rfl
  | cons hd rest ih =>
    obtain ⟨r, e'⟩ := hd
    rw [FS.set_cons]
    by_cases hr : r = p
    · subst hr
      simp [FS.statOf_cons, hpq]
    · simp only [if_neg hr, FS.statOf_cons, ih]

theorem FS.readFile_set_self (fs : FS) (p : FPath) (c : Bytes) :
    FS.readFile (FS.set fs p (.file c)) p = some c := by
  simp [FS.readFile, FS.statOf_set_self]

theorem FS.statOf_removeUnder (fs : FS) (p q : FPath) :
    FS.statOf (FS.removeUnder fs p) q =
      if p.isPrefixOf q then none else FS.statOf fs q := by
  induction fs with
  | nil =>
    show (none : Option Entry) = if p.isPrefixOf q then none else none
    by_cases hq : p.isPrefixOf q <;> simp [hq]
  | cons hd rest ih =>
    obtain ⟨r, e'⟩ := hd
    rw [FS.removeUnder_cons]
    by_cases hr : p.isPrefixOf r
    · rw [if_pos hr, ih]
      by_cases hq : p.isPrefixOf q
      · simp only [if_pos hq]
      · have hrq : r ≠ q := fun hh => hq (hh ▸ hr)
        simp only [if_neg hq, FS.statOf_cons, if_neg hrq]
    · rw [if_neg hr, FS.statOf_cons]
      by_cases hq : r = q
      · subst hq
        have hpr : ¬ p.isPrefixOf r = true := hr
        simp [FS.statOf_cons, hpr]
      · simp only [if_neg hq, ih, FS.statOf_cons, if_neg hq]

theorem FS.statOf_eq_none_of_noneUnder (fs : FS) (p q : FPath)
    (hn : FS.noneUnder fs p = true) (hq : p.isPrefixOf q = true) :
    FS.statOf fs q = none := by
  induction fs with
  | nil => rfl
  | cons hd rest ih =>
    obtain ⟨r, e'⟩ := hd
    rw [FS.noneUnder_cons, Bool.and_eq_true, Bool.not_eq_true'] at hn
    have hr : r ≠ q := fun hh => by
      rw [hh] at hn
      rw [hn.1] at hq
      exact Bool.false_ne_true hq
    rw [FS.statOf_cons, if_neg hr]
    exact ih hn.2

theorem FS.noneUnder_removeUnder (fs : FS) (p : FPath) :
    FS.noneUnder (FS.removeUnder fs p) p = true := by
  induction fs with
  | nil => rfl
  | cons hd rest ih =>
    obtain ⟨r, e'⟩ := hd
    rw [FS.removeUnder_cons]
    by_cases hr : p.isPrefixOf r
    · rw [if_pos hr]
      exact ih
    · rw [if_neg hr, FS.noneUnder_cons, Bool.and_eq_true, Bool.not_eq_true']
      exact ⟨Bool.of_not_eq_true hr, ih⟩

theorem FS.noneUnder_set (fs : FS) (p q : FPath) (e : Entry)
    (hn : FS.noneUnder fs p = true) (hq : p.isPrefixOf q = false) :
    FS.noneUnder (FS.set fs q e) p = true := by
  induction fs with
  | nil =>
    show FS.noneUnder [(q, e)] p = true
    rw [FS.noneUnder_cons, Bool.and_eq_true, Bool.not_eq_true']
    exact ⟨hq, rfl⟩
  | cons hd rest ih =>
    obtain ⟨r, e'⟩ := hd
    rw [FS.noneUnder_cons, Bool.and_eq_true, Bool.not_eq_true'] at hn
    rw [FS.set_cons]
    by_cases hr : r = q
    · rw [if_pos hr, FS.noneUnder_cons, Bool.and_eq_true, Bool.not_eq_true']
      exact ⟨hq, hn.2⟩
    · rw [if_neg hr, FS.noneUnder_cons, Bool.and_eq_true, Bool.not_eq_true']
      exact ⟨hn.1, ih hn.2⟩

theorem decodeLE_le32 (n : Nat) (h : n < 4294967296) : decodeLE (le32 n) = n := by
  simp only [le32, decodeLE]
  omega

theorem assemble_length (a s p : Bytes) :
    (assemble a s p).length = 16 + a.length + s.length + p.length := by
  simp [assemble, magicBytes, versionBytes, le32]
  omega

theorem assemble_take8 (a s p : Bytes) :
    (assemble a s p).take 8 = magicBytes ++ versionBytes := rfl

theorem assemble_drop8_take4 (a s p : Bytes) :
    ((assemble a s p).drop 8).take 4 = le32 a.length := rfl

theorem assemble_drop12_take4 (a s p : Bytes) :
    ((assemble a s p).drop 12).take 4 = le32 s.length := rfl

theorem assemble_drop16 (a s p : Bytes) :
    (assemble a s p).drop 16 = a ++ s ++ p := rfl

theorem assemble_pkSection (a s p : Bytes) :
    ((assemble a s p).drop 16).take a.length = a := by
  rw [assemble_drop16, List.append_assoc]
  exact List.take_left a (s ++ p)

theorem assemble_drop_pk (a s p : Bytes) :
    (assemble a s p).drop (16 + a.length) = s ++ p := by
  rw [← List.drop_drop a.length 16, assemble_drop16, List.append_assoc,
    List.drop_left]

theorem assemble_sgSection (a s p : Bytes) :
    ((assemble a s p).drop (16 + a.length)).take s.length = s := by
  rw [assemble_drop_pk]
  exact List.take_left s p

theorem assemble_plSection (a s p : Bytes) :
    (assemble a s p).drop (16 + a.length + s.length) = p := by
  rw [← List.drop_drop s.length (16 + a.length), assemble_drop_pk,
    List.drop_left]

theorem packFinish_none (d : PackDeps) (o : PackOptions) (fs : FS) (key : Nat)
    (a z : Bytes) (fs' : FS) (h : packFinish d o fs key a z = (fs', none)) :
    d.writeOutcome = .ok ∧ a.length < 4294967296 ∧
    (d.sign key z).length < 4294967296 ∧
    fs' = FS.set fs o.outFile (.file (assemble a (d.sign key z) z)) := by
  by_cases hlen : a.length < 4294967296 ∧ (d.sign key z).length < 4294967296
  · cases hw : d.writeOutcome with
    | ok =>
      simp only [packFinish, hw, if_pos hlen] at h
      injection h with h1 h2
      exact ⟨rfl, hlen.1, hlen.2, h1.symm⟩
    | failAfter k =>
      simp only [packFinish, hw, if_pos hlen] at h
      injection h with h1 h2
      exact Option.noConfusion h2
  · simp only [packFinish, if_neg hlen] at h
    injection h with h1 h2
    exact Option.noConfusion h2

theorem packFinish_fail (d : PackDeps) (o : PackOptions) (fs : FS) (key : Nat)
    (a z : Bytes) (e : PackErr)
    (h : (packFinish d o fs key a z).2 = some e) (he : e ≠ PackErr.writeFailed) :
    (packFinish d o fs key a z).1 = fs := by
  by_cases hlen : a.length < 4294967296 ∧ (d.sign key z).length < 4294967296
  · cases hw : d.writeOutcome with
    | ok => simp [packFinish, hw, if_pos hlen] at h
    | failAfter k =>
      simp only [packFinish, hw, if_pos hlen] at h
      injection h with h1
      exact absurd h1.symm he
  · simp [packFinish, if_neg hlen]

theorem packFinish_noneUnder (d : PackDeps) (o : PackOptions) (fs : FS)
    (key : Nat) (a z : Bytes) (t : FPath)
    (hn : FS.noneUnder fs t = true) (ho : t.isPrefixOf o.outFile = false) :
    FS.noneUnder (packFinish d o fs key a z).1 t = true := by
  by_cases hlen : a.length < 4294967296 ∧ (d.sign key z).length < 4294967296
  · cases hw : d.writeOutcome with
    | ok =>
      simp only [packFinish, hw, if_pos hlen]
      exact FS.noneUnder_set fs t o.outFile _ hn ho
    | failAfter k =>
      simp only [packFinish, hw, if_pos hlen]
      exact FS.noneUnder_set fs t o.outFile _ hn ho
  · simp only [packFinish, if_neg hlen]
    exact hn

theorem pack_none_char (d : PackDeps) (o : PackOptions) (fs fs' : FS)
    (h : pack d o fs = (fs', none)) :
    ∃ pem key zip,
      FS.readFile fs o.privateKeyFile = some pem ∧
      d.parseKey pem = some key ∧
      d.writeOutcome = .ok ∧
      (d.pubDer key).length < 4294967296 ∧
      (d.sign key zip).length < 4294967296 ∧
      (FS.statOf fs o.sourcePath = some (.file zip) ∨
        (FS.statOf fs o.sourcePath = some .dir ∧ d.zipResult = some zip)) ∧
      FS.statOf fs' o.outFile =
        some (.file (assemble (d.pubDer key) (d.sign key zip) zip)) := by
  simp only [pack] at h
  split at h
  · exact Option.noConfusion (congrArg Prod.snd h)
  · split at h
    · exact Option.noConfusion (congrArg Prod.snd h)
    · split at h
      · exact Option.noConfusion (congrArg Prod.snd h)
      · split at h
        · exact Option.noConfusion (congrArg Prod.snd h)
        · next pem hpem =>
          split at h
          · exact Option.noConfusion (congrArg Prod.snd h)
          · next key hkey =>
            split at h
            · exact Option.noConfusion (congrArg Prod.snd h)
            · next hsrc =>
              split at h
              · exact Option.noConfusion (congrArg Prod.snd h)
              · next z hzip =>
                split at h
                · next hread =>
                  rw [FS.readFile_set_self] at hread
                  exact Option.noConfusion hread
                · next zip hread =>
                  rw [FS.readFile_set_self] at hread
                  injection hread with hzz
                  subst hzz
                  obtain ⟨hw, hl1, hl2, hfs⟩ := packFinish_none d o _ key _ _ fs' h
                  subst hfs
                  exact ⟨pem, key, z, hpem, hkey, hw, hl1, hl2,
                    Or.inr ⟨hsrc, hzip⟩, by rw [FS.statOf_set_self]⟩
            · next c hsrc =>
              obtain ⟨hw, hl1, hl2, hfs⟩ := packFinish_none d o _ key _ _ fs' h
              subst hfs
              exact ⟨pem, key, c, hpem, hkey, hw, hl1, hl2,
                Or.inl hsrc, by rw [FS.statOf_set_self]⟩
            · exact Option.noConfusion (congrArg Prod.snd h)

theorem isPrefixOf_rfl (l : FPath) : l.isPrefixOf l = true := by
  induction l with
  | nil => rfl
  | cons x xs ih => simp [List.isPrefixOf, ih]

theorem isPrefixOf_append (l l' : FPath) : l.isPrefixOf (l ++ l') = true := by
  induction l with
  | nil => simp [List.isPrefixOf]
  | cons x xs ih => simp [List.isPrefixOf, ih]

theorem neq_of_not_isPrefixOf {t r : FPath} (h : ¬ t.isPrefixOf r = true) :
    r ≠ t :=
  fun hh => h (by rw [hh]; exact isPrefixOf_rfl t)

theorem neq_append_of_not_isPrefixOf {t r : FPath} (l : FPath)
    (h : ¬ t.isPrefixOf r = true) : r ≠ t ++ l :=
  fun hh => h (by rw [hh]; exact isPrefixOf_append t l)

theorem statOf_cleanup (fs fs2 : FS) (t q : FPath)
    (hn : FS.noneUnder fs t = true)
    (hstat : ¬ t.isPrefixOf q = true → FS.statOf fs2 q = FS.statOf fs q) :
    FS.statOf (FS.removeUnder fs2 t) q = FS.statOf fs q := by
  rw [FS.statOf_removeUnder]
  by_cases hq : t.isPrefixOf q = true
  · rw [if_pos hq, FS.statOf_eq_none_of_noneUnder fs t q hn hq]
  · rw [if_neg hq, hstat hq]

/-- C1: for every successful run of `pack`, the bytes written to the output
file have total length `16 + len(publicKeyDER) + len(signature) +
len(payload)`; the 32-bit unsigned little-endian value at offset 8 is the
exact byte length of the public-key section and the one at offset 12 is the
exact byte length of the signature section; offset 16 is followed by the
public-key bytes, then the signature bytes, then the payload bytes — where
the public key and the signature are the ones of this very run (the key was
parsed from the key file read in this run, and the signature signs the
payload). -/
theorem pack_container_layout (d : PackDeps) (o : PackOptions) (fs fs' : FS)
    (h : pack d o fs = (fs', none)) :
    ∃ b pem key pl,
      FS.readFile fs o.privateKeyFile = some pem ∧
      d.parseKey pem = some key ∧
      FS.statOf fs' o.outFile = some (.file b) ∧
      b.length = 16 + (d.pubDer key).length + (d.sign key pl).length + pl.length ∧
      decodeLE ((b.drop 8).take 4) = (d.pubDer key).length ∧
      decodeLE ((b.drop 12).take 4) = (d.sign key pl).length ∧
      (b.drop 16).take (d.pubDer key).length = d.pubDer key ∧
      (b.drop (16 + (d.pubDer key).length)).take (d.sign key pl).length =
        d.sign key pl ∧
      b.drop (16 + (d.pubDer key).length + (d.sign key pl).length) = pl := by
  obtain ⟨pem, key, zip, hpem, hkey, _, hl1, hl2, _, hout⟩ :=
    pack_none_char d o fs fs' h
  exact ⟨_, pem, key, zip, hpem, hkey, hout,
    assemble_length _ _ _,
    by rw [assemble_drop8_take4]; exact decodeLE_le32 _ hl1,
    by rw [assemble_drop12_take4]; exact decodeLE_le32 _ hl2,
    assemble_pkSection _ _ _, assemble_sgSection _ _ _, assemble_plSection _ _ _⟩

/-- Witness for C1: the demo run of `pack` succeeds and the layout facts hold
for its output file. -/
theorem pack_container_layout_witness :
    ∃ b pem key pl,
      FS.readFile demoFS demoOpts.privateKeyFile = some pem ∧
      demoDeps.parseKey pem = some key ∧
      FS.statOf demoOut demoOpts.outFile = some (.file b) ∧
      b.length = 16 + (demoDeps.pubDer key).length +
        (demoDeps.sign key pl).length + pl.length ∧
      decodeLE ((b.drop 8).take 4) = (demoDeps.pubDer key).length ∧
      decodeLE ((b.drop 12).take 4) = (demoDeps.sign key pl).length ∧
      (b.drop 16).take (demoDeps.pubDer key).length = demoDeps.pubDer key ∧
      (b.drop (16 + (demoDeps.pubDer key).length)).take
        (demoDeps.sign key pl).length = demoDeps.sign key pl ∧
      b.drop (16 + (demoDeps.pubDer key).length +
        (demoDeps.sign key pl).length) = pl :=
  pack_container_layout demoDeps demoOpts demoFS demoOut (by decide)

/-- C2: in every successful run of `pack`, the byte sequence over which the
signature is computed is byte-identical to the payload section written into
the container: one and the same byte list `pl` is the argument of the signing
oracle and the payload section of the output file, with nothing re-deriving
or mutating it in between. -/
theorem pack_signature_over_payload (d : PackDeps) (o : PackOptions)
    (fs fs' : FS) (h : pack d o fs = (fs', none)) :
    ∃ b key pl,
      FS.statOf fs' o.outFile = some (.file b) ∧
      (b.drop (16 + (d.pubDer key).length)).take (d.sign key pl).length =
        d.sign key pl ∧
      b.drop (16 + (d.pubDer key).length + (d.sign key pl).length) = pl := by
  obtain ⟨pem, key, zip, _, _, _, _, _, _, hout⟩ := pack_none_char d o fs fs' h
  exact ⟨_, key, zip, hout, assemble_sgSection _ _ _, assemble_plSection _ _ _⟩

/-- Witness for C2 at the demo run. -/
theorem pack_signature_over_payload_witness :
    ∃ b key pl,
      FS.statOf demoOut demoOpts.outFile = some (.file b) ∧
      (b.drop (16 + (demoDeps.pubDer key).length)).take
        (demoDeps.sign key pl).length = demoDeps.sign key pl ∧
      b.drop (16 + (demoDeps.pubDer key).length +
        (demoDeps.sign key pl).length) = pl :=
  pack_signature_over_payload demoDeps demoOpts demoFS demoOut (by decide)

/-- C3 counterexample: at these concrete inputs `pack` fails at the final
write (the write stops after three bytes), yet the failed run has created a
partial output file at the output path where no file existed before — so it
is not true that every failing run of `pack`, a failure of the final write
included, leaves the output path untouched. -/
theorem pack_write_fail_partial :
    (pack demoFailDeps demoOpts demoFS).2 = some PackErr.writeFailed ∧
    FS.statOf demoFS demoOpts.outFile = none ∧
    FS.statOf (pack demoFailDeps demoOpts demoFS).1 demoOpts.outFile =
      some (.file [0x45, 0x58, 0x54]) := by decide

/-- C3 amended: for every run of `pack` that fails at validation, key
loading, payload production, signing or assembly — that is, with any error
other than a failure of the final write itself — the file at the output path
is neither created nor modified (given the freshness of the `mkdtemp`
scratch path).  A failure of the final write may leave a partially written
output file, as the specification itself documents in its error-handling
section. -/
theorem pack_fail_before_write_keeps_outFile (d : PackDeps) (o : PackOptions)
    (fs : FS) (e : PackErr)
    (hn : FS.noneUnder fs d.tmp = true)
    (h2 : (pack d o fs).2 = some e) (he : e ≠ PackErr.writeFailed) :
    FS.statOf (pack d o fs).1 o.outFile = FS.statOf fs o.outFile := by
  suffices hgoal : ∀ fs1 e1, pack d o fs = (fs1, e1) → e1 = some e →
      FS.statOf fs1 o.outFile = FS.statOf fs o.outFile by
    exact hgoal (pack d o fs).1 (pack d o fs).2 rfl h2
  intro fs1 e1 hpk he1
  simp only [pack] at hpk
  split at hpk
  · injection hpk with h1 _
    rw [← h1]
  · split at hpk
    · injection hpk with h1 _
      rw [← h1]
    · split at hpk
      · injection hpk with h1 _
        rw [← h1]
      · split at hpk
        · injection hpk with h1 _
          rw [← h1]
        · next pem hpem =>
          split at hpk
          · injection hpk with h1 _
            rw [← h1]
          · next key hkey =>
            split at hpk
            · injection hpk with h1 _
              rw [← h1]
            · next hsrc =>
              split at hpk
              · next hzip =>
                injection hpk with h1 _
                rw [← h1]
                refine statOf_cleanup fs _ d.tmp o.outFile hn (fun hq => ?_)
                exact FS.statOf_set_ne fs d.tmp o.outFile _
                  (neq_of_not_isPrefixOf hq)
              · next z hzip =>
                split at hpk
                · next hread =>
                  rw [FS.readFile_set_self] at hread
                  exact Option.noConfusion hread
                · next zip2 hread =>
                  rw [FS.readFile_set_self] at hread
                  injection hread with hz
                  subst hz
                  rcases hfe : packFinish d o
                      (FS.removeUnder (FS.set (FS.set fs d.tmp .dir)
                        (d.tmp ++ ["extension.zip"]) (.file z)) d.tmp) key
                      (d.pubDer key) z with ⟨ffs, fe⟩
                  rw [hfe] at hpk
                  injection hpk with h1 h2'
                  rw [← h1]
                  have hsnd : (packFinish d o
                      (FS.removeUnder (FS.set (FS.set fs d.tmp .dir)
                        (d.tmp ++ ["extension.zip"]) (.file z)) d.tmp) key
                      (d.pubDer key) z).2 = some e := by
                    rw [hfe, h2', he1]
                  have hfst := packFinish_fail d o _ key _ _ e hsnd he
                  rw [hfe] at hfst
                  have hffs : ffs = FS.removeUnder (FS.set (FS.set fs d.tmp .dir)
                      (d.tmp ++ ["extension.zip"]) (.file z)) d.tmp := hfst
                  rw [hffs]
                  refine statOf_cleanup fs _ d.tmp o.outFile hn (fun hq => ?_)
                  rw [FS.statOf_set_ne _ _ _ _ (neq_append_of_not_isPrefixOf _ hq),
                    FS.statOf_set_ne _ _ _ _ (neq_of_not_isPrefixOf hq)]
            · next c hsrc =>
              rcases hfe : packFinish d o fs key (d.pubDer key) c with ⟨ffs, fe⟩
              rw [hfe] at hpk
              injection hpk with h1 h2'
              rw [← h1]
              have hsnd : (packFinish d o fs key (d.pubDer key) c).2 = some e := by
                rw [hfe, h2', he1]
              have hfst := packFinish_fail d o fs key _ _ e hsnd he
              rw [hfe] at hfst
              have hffs : ffs = fs := hfst
              rw [hffs]
            · injection hpk with h1 _
              rw [← h1]

/-- Witness for the amended C3: a run failing at validation (missing source)
leaves the output path untouched. -/
theorem pack_fail_before_write_keeps_outFile_witness :
    FS.statOf (pack demoDeps demoNoSrcOpts demoFS).1 demoNoSrcOpts.outFile =
      FS.statOf demoFS demoNoSrcOpts.outFile :=
  pack_fail_before_write_keeps_outFile demoDeps demoNoSrcOpts demoFS
    PackErr.sourceMissing (by decide) (by decide) (by decide)

/-- C4: for every path at which an entry already exists, calling `keygen`
(or `keygenSync`) with force false or omitted fails with the already-exists
error before any key-generation work — the result is the same for every
generation oracle `g`, and the returned filesystem is exactly the input one,
so the existing key file at that path is left byte-for-byte unmodified. -/
theorem keygen_existing_not_overwritten (g : Option Bytes) (o : KeygenOptions)
    (fs : FS)
    (hex : FS.existsPath fs o.privateKeyFile = true)
    (hf : o.force.getD false = false) :
    keygen g o fs = (fs, some .alreadyExists) ∧
    keygenSync g o fs = (fs, some .alreadyExists) := by
  constructor <;> simp [keygen, keygenSync, hex, hf]

/-- Witness for C4: the demo filesystem already holds the key file, so both
entry points fail with the already-exists error and change nothing. -/
theorem keygen_existing_not_overwritten_witness :
    keygen (some [9]) demoKeyOpts demoFS = (demoFS, some .alreadyExists) ∧
    keygenSync (some [9]) demoKeyOpts demoFS = (demoFS, some .alreadyExists) :=
  keygen_existing_not_overwritten (some [9]) demoKeyOpts demoFS
    (by decide) (by decide)

/-- C5: `pack` validates before doing any work, in source order: a missing
private-key file fails with the key-missing error; otherwise a missing source
path fails with the source-missing (NotFound) error; otherwise an existing
output file without force fails with the already-exists error.  In each case
the returned filesystem is exactly the input one — no output file is created
— and the result is the same for every oracle `d`, so no key loading,
archiving, signing or writing is performed. -/
theorem pack_validation_first (d : PackDeps) (o : PackOptions) (fs : FS) :
    (FS.existsPath fs o.privateKeyFile = false →
      pack d o fs = (fs, some .privateKeyMissing)) ∧
    (FS.existsPath fs o.privateKeyFile = true →
      FS.existsPath fs o.sourcePath = false →
      pack d o fs = (fs, some .sourceMissing)) ∧
    (FS.existsPath fs o.privateKeyFile = true →
      FS.existsPath fs o.sourcePath = true →
      o.force.getD false = false →
      FS.existsPath fs o.outFile = true →
      pack d o fs = (fs, some .outFileExists)) := by
  refine ⟨fun h1 => ?_, fun h1 h2 => ?_, fun h1 h2 h3 h4 => ?_⟩
  · simp [pack, h1]
  · simp [pack, h1, h2]
  · simp [pack, h1, h2, h3, h4]

/-- Witness for C5: `pack` on a filesystem whose source path does not exist
fails with the source-missing error and returns the filesystem unchanged. -/
theorem pack_validation_first_witness :
    pack demoDeps demoNoSrcOpts demoFS = (demoFS, some .sourceMissing) :=
  (pack_validation_first demoDeps demoNoSrcOpts demoFS).2.1
    (by decide) (by decide)

/-- C6: container assembly round-trips — for all publicKeyDER, signature and
payload byte sequences whose section lengths fit the unsigned 32-bit length
fields (as the lengths in any container the program can produce must),
parsing the assembled container by reading the magic and version, then the
two little-endian 32-bit length fields, then slicing the three sections by
those lengths, recovers publicKey, signature and payload sections
byte-identical to the inputs. -/
theorem assemble_parse_roundtrip (a s p : Bytes)
    (ha : a.length < 4294967296) (hs : s.length < 4294967296) :
    parseContainer (assemble a s p) = some (a, s, p) := by
  have h1 : (assemble a s p).take 4 = magicBytes := rfl
  have h2 : ((assemble a s p).drop 4).take 4 = versionBytes := rfl
  simp only [parseContainer, if_pos (And.intro h1 h2),
    assemble_drop8_take4, assemble_drop12_take4,
    decodeLE_le32 _ ha, decodeLE_le32 _ hs,
    assemble_pkSection, assemble_sgSection, assemble_plSection]

/-- Witness for C6 at concrete sections. -/
theorem assemble_parse_roundtrip_witness :
    parseContainer (assemble [1] [2, 3] [4, 5, 6]) =
      some ([1], [2, 3], [4, 5, 6]) :=
  assemble_parse_roundtrip [1] [2, 3] [4, 5, 6] (by decide) (by decide)

/-- C7: when `pack` is given a directory source, the scratch directory used
for zip staging — created fresh for the invocation, which is the
`noneUnder` freshness hypothesis `mkdtemp` guarantees, with the output path
not lying inside it — no longer exists, nor does anything below it, in the
filesystem `pack` returns, on every exit path: validation failure, key
failure, zip-creation failure, read failure, assembly failure, write failure
or success. -/
theorem pack_scratch_removed (d : PackDeps) (o : PackOptions) (fs : FS)
    (hsrc : FS.statOf fs o.sourcePath = some .dir)
    (hn : FS.noneUnder fs d.tmp = true)
    (ho : d.tmp.isPrefixOf o.outFile = false) :
    FS.noneUnder (pack d o fs).1 d.tmp = true := by
  suffices hgoal : ∀ fs1 e1, pack d o fs = (fs1, e1) →
      FS.noneUnder fs1 d.tmp = true by
    exact hgoal (pack d o fs).1 (pack d o fs).2 rfl
  intro fs1 e1 hpk
  simp only [pack] at hpk
  split at hpk
  · injection hpk with h1 _
    rw [← h1]
    exact hn
  · split at hpk
    · injection hpk with h1 _
      rw [← h1]
      exact hn
    · split at hpk
      · injection hpk with h1 _
        rw [← h1]
        exact hn
      · split at hpk
        · injection hpk with h1 _
          rw [← h1]
          exact hn
        · next pem hpem =>
          split at hpk
          · injection hpk with h1 _
            rw [← h1]
            exact hn
          · next key hkey =>
            split at hpk
            · injection hpk with h1 _
              rw [← h1]
              exact hn
            · next hsrc2 =>
              split at hpk
              · next hzip =>
                injection hpk with h1 _
                rw [← h1]
                exact FS.noneUnder_removeUnder _ _
              · next z hzip =>
                split at hpk
                · next hread =>
                  injection hpk with h1 _
                  rw [← h1]
                  exact FS.noneUnder_removeUnder _ _
                · next zip2 hread =>
                  rcases hfe : packFinish d o
                      (FS.removeUnder (FS.set (FS.set fs d.tmp .dir)
                        (d.tmp ++ ["extension.zip"]) (.file z)) d.tmp) key
                      (d.pubDer key) zip2 with ⟨ffs, fe⟩
                  rw [hfe] at hpk
                  injection hpk with h1 _
                  rw [← h1]
                  have hpres := packFinish_noneUnder d o
                    (FS.removeUnder (FS.set (FS.set fs d.tmp .dir)
                      (d.tmp ++ ["extension.zip"]) (.file z)) d.tmp) key
                    (d.pubDer key) zip2 d.tmp
                    (FS.noneUnder_removeUnder _ _) ho
                  rw [hfe] at hpres
                  exact hpres
            · next c hsrc2 =>
              rcases hfe : packFinish d o fs key (d.pubDer key) c with ⟨ffs, fe⟩
              rw [hfe] at hpk
              injection hpk with h1 _
              rw [← h1]
              have hpres := packFinish_noneUnder d o fs key (d.pubDer key) c
                d.tmp hn ho
              rw [hfe] at hpres
              exact hpres
            · injection hpk with h1 _
              rw [← h1]
              exact hn

/-- Witness for C7: after the successful demo run on a directory source, no
entry at or below the scratch directory remains. -/
theorem pack_scratch_removed_witness :
    FS.noneUnder (pack demoDeps demoDirOpts demoDirFS).1 demoDeps.tmp = true :=
  pack_scratch_removed demoDeps demoDirOpts demoDirFS
    (by decide) (by decide) (by decide)

/-- C8: when the source path holds a regular file, `pack` uses the file
bytes verbatim as the payload: for an arbitrary byte list `c` — the theorem
quantifies over all contents, so no validation of zip structure is performed
on them — the output container is the assembly of the derived public key,
the signature over `c`, and `c` itself, and its payload section equals `c`
exactly. -/
theorem pack_file_source_verbatim (d : PackDeps) (o : PackOptions)
    (fs fs' : FS) (c : Bytes)
    (hsrc : FS.statOf fs o.sourcePath = some (.file c))
    (h : pack d o fs = (fs', none)) :
    ∃ pem key,
      FS.readFile fs o.privateKeyFile = some pem ∧
      d.parseKey pem = some key ∧
      FS.statOf fs' o.outFile =
        some (.file (assemble (d.pubDer key) (d.sign key c) c)) ∧
      (assemble (d.pubDer key) (d.sign key c) c).drop
        (16 + (d.pubDer key).length + (d.sign key c).length) = c := by
  obtain ⟨pem, key, zip, hpem, hkey, _, _, _, hdisj, hout⟩ :=
    pack_none_char d o fs fs' h
  rcases hdisj with hfile | ⟨hdir, _⟩
  · rw [hsrc] at hfile
    injection hfile with hce
    injection hce with hc
    subst hc
    exact ⟨pem, key, hpem, hkey, hout, assemble_plSection _ _ _⟩
  · rw [hsrc] at hdir
    injection hdir with hce
    exact Entry.noConfusion hce

/-- Witness for C8: the demo run packs the two-byte source file verbatim. -/
theorem pack_file_source_verbatim_witness :
    ∃ pem key,
      FS.readFile demoFS demoOpts.privateKeyFile = some pem ∧
      demoDeps.parseKey pem = some key ∧
      FS.statOf demoOut demoOpts.outFile =
        some (.file (assemble (demoDeps.pubDer key)
          (demoDeps.sign key [5, 6]) [5, 6])) ∧
      (assemble (demoDeps.pubDer key) (demoDeps.sign key [5, 6]) [5, 6]).drop
        (16 + (demoDeps.pubDer key).length +
          (demoDeps.sign key [5, 6]).length) = [5, 6] :=
  pack_file_source_verbatim demoDeps demoOpts demoFS demoOut [5, 6]
    (by decide) (by decide)

/-- C9: every container produced by `pack` begins with the fixed magic bytes
0x45 0x58 0x54 0x38 at offset 0 followed by the fixed format version 2 as
the little-endian bytes 0x02 0x00 0x00 0x00 at offset 4: the first eight
bytes of the output file equal this one constant for every oracle, every
option record and every filesystem. -/
theorem pack_magic_version (d : PackDeps) (o : PackOptions) (fs fs' : FS)
    (h : pack d o fs = (fs', none)) :
    ∃ b, FS.statOf fs' o.outFile = some (.file b) ∧
      b.take 8 = [0x45, 0x58, 0x54, 0x38, 0x02, 0x00, 0x00, 0x00] := by
  obtain ⟨pem, key, zip, _, _, _, _, _, _, hout⟩ := pack_none_char d o fs fs' h
  exact ⟨_, hout, rfl⟩

/-- Witness for C9 at the demo run. -/
theorem pack_magic_version_witness :
    ∃ b, FS.statOf demoOut demoOpts.outFile = some (.file b) ∧
      b.take 8 = [0x45, 0x58, 0x54, 0x38, 0x02, 0x00, 0x00, 0x00] :=
  pack_magic_version demoDeps demoOpts demoFS demoOut (by decide)

/-- C10: `keygen` and `keygenSync` are behaviorally equivalent: over the
same generation oracle, the same options and the same filesystem they return
identical results — both fail with the already-exists error exactly when the
key file exists and force is false, and both otherwise write the freshly
generated PKCS#8-PEM private key to `privateKeyFile` as their only
filesystem effect.  In the source both invoke the RSA-2048 generator with
identical parameters and differ only in synchronous versus awaited-callback
style, which a single sequential invocation cannot distinguish, so their
embeddings coincide definitionally. -/
theorem keygen_equiv_keygenSync (g : Option Bytes) (o : KeygenOptions)
    (fs : FS) : keygen g o fs = keygenSync g o fs := rfl
